import Mathlib

/-
Verification development for the FileStore bot in `src/fileshaare.py`.

The embedding is shallow: the relational tables become Lean structures over
lists, each database transaction becomes a pure function from the database
value to an `Except`-result paired with the new database value (a failed
transaction is rolled back, so an error leaves the state unchanged), and the
Telegram handler methods become functions from their inputs to structured
results.  Timestamps are modelled as natural numbers counting seconds.
-/

namespace FileStore

/-- Configuration constant `MAX_FILE_SIZE = 2000 * 1024 * 1024` (source line 66). -/
def MAX_FILE_SIZE : Nat := 2000 * 1024 * 1024

/-!  Authorization (source lines 284-342).  `is_user_authorized` first checks the
static admin list; otherwise it queries the `authorized_users` table inside a
`try`/`except` block and returns `False` on any exception.  The store lookup is
modelled as a function into `StoreResult`: `ok found` is a completed query
(`found` says whether an active row exists) and `failure` is a raised
exception (connection error, timeout, ...). -/

inductive StoreResult where
  | ok (found : Bool)
  | failure
deriving DecidableEq, Repr

/-- Embedding of `is_admin` (source lines 284-286): membership in `ADMIN_IDS`. -/
def is_admin (adminIds : List Int) (userId : Int) : Bool :=
  adminIds.contains userId

/-- Embedding of `is_user_authorized` (source lines 325-342): admins pass without
touching the store; for anyone else the `authorized_users` lookup decides, and a
store exception is caught and turned into `False`. -/
def is_user_authorized (adminIds : List Int) (store : Int → StoreResult) (userId : Int) : Bool :=
  if is_admin adminIds userId then
    true
  else
    match store userId with
    | .ok found => found
    | .failure => false

/-- Embedding of `_calculate_expiry` (source lines 1095-1112).  The five
recognized duration settings map to `now + duration` in seconds
(`timedelta(minutes=5)` and so on); `never` and every other string map to
`None`. -/
def calculateExpiry (expirySetting : String) (now : Nat) : Option Nat :=
  if expirySetting = "never" then none
  else if expirySetting = "5m" then some (now + 5 * 60)
  else if expirySetting = "10m" then some (now + 10 * 60)
  else if expirySetting = "30m" then some (now + 30 * 60)
  else if expirySetting = "1h" then some (now + 60 * 60)
  else if expirySetting = "1d" then some (now + 24 * 60 * 60)
  else none

/-!  The relational data model (source lines 160-213).  Display-only columns
(`created_at`, `uploaded_at`, `views`, `downloads`, `tags`, `custom_caption`,
`storage_message_id`, `uploader_username`, the `auto_*` flags) are elided; the
columns that carry the invariants are kept under camel-case names. -/

/-- One row of the `groups` table: `id`, `name`, `owner_id`, `total_files`,
`total_size`, with the `UNIQUE(name, owner_id)` constraint enforced by
`findGroup`-before-insert in `saveFileToDb`. -/
structure GroupRow where
  gid : Nat
  name : String
  ownerId : Int
  totalFiles : Nat
  totalSize : Nat
deriving DecidableEq, Repr

/-- One row of the `files` table: `id`, `group_id`, `serial_number`,
`unique_id`, `file_name`, `file_type`, `file_size`, `telegram_file_id`,
`uploader_id`. -/
structure FileRow where
  fid : Nat
  groupId : Nat
  serialNumber : Nat
  uniqueId : String
  fileName : String
  fileType : String
  fileSize : Nat
  telegramFileId : String
  uploaderId : Int
deriving DecidableEq, Repr

/-- One row of the `file_links` table: `link_code`, `link_type`, `file_id`,
`group_id`, `owner_id`, `expires_at`, `clicks`, `is_active`, `max_uses`,
`current_uses`. -/
structure LinkRow where
  linkCode : String
  linkType : String
  fileId : Option Nat
  groupId : Option Nat
  ownerId : Int
  expiresAt : Option Nat
  clicks : Nat
  isActive : Bool
  maxUses : Option Nat
  currentUses : Nat
deriving DecidableEq, Repr

/-- The database: the `groups` and `files` tables plus the two `SERIAL`
sequences feeding their primary keys. -/
structure DB where
  groups : List GroupRow
  files : List FileRow
  nextGroupId : Nat
  nextFileId : Nat
deriving DecidableEq, Repr

/-- The freshly initialized database: empty tables, both `SERIAL` sequences at 1. -/
def dbInit : DB := ⟨[], [], 1, 1⟩

/-- The `SELECT id, total_files FROM groups WHERE owner_id = ... AND name = ...`
lookup at the head of `_save_file_to_db` (source lines 1122-1124). -/
def findGroup (db : DB) (ownerId : Int) (name : String) : Option GroupRow :=
  db.groups.find? (fun g => g.ownerId == ownerId && g.name == name)

/-- The rows of `files` belonging to one group. -/
def filesIn (files : List FileRow) (gid : Nat) : List FileRow :=
  files.filter (fun f => f.groupId == gid)

/-- The non-deleted files of a group inside a database. -/
def filesOf (db : DB) (gid : Nat) : List FileRow :=
  filesIn db.files gid

/-- The `UNIQUE(group_id, serial_number)` constraint check (source line 194). -/
def serialTaken (files : List FileRow) (gid serial : Nat) : Bool :=
  files.any (fun f => f.groupId == gid && f.serialNumber == serial)

/-- The `UNIQUE` constraint on `files.unique_id` (source line 181). -/
def uniqueIdTaken (files : List FileRow) (uniqueId : String) : Bool :=
  files.any (fun f => f.uniqueId == uniqueId)

/-- A violated uniqueness constraint: psycopg2 raises `IntegrityError`, the
transaction is rolled back, and `_save_file_to_db` has no retry logic, so the
exception propagates to the caller. -/
inductive SaveError where
  | uniqueViolation
deriving DecidableEq, Repr

/-- The tail of the `_save_file_to_db` transaction (source lines 1139-1157):
`INSERT INTO files ...` under the two uniqueness constraints, then `UPDATE
groups SET total_files = serial, total_size = total_size + size`, then
`COMMIT`.  `groupsWithTarget` is the groups table as it stands inside the
transaction (including a group row freshly inserted by the caller), `nextGid`
the group sequence value after the transaction. -/
def insertFileAndUpdate (db : DB) (groupsWithTarget : List GroupRow) (gid serial : Nat)
    (uniqueId fileName fileType : String) (fileSize : Nat) (telegramFileId : String)
    (userId : Int) (nextGid : Nat) : Except SaveError (DB × Nat × Nat) :=
  if serialTaken db.files gid serial then .error .uniqueViolation
  else if uniqueIdTaken db.files uniqueId then .error .uniqueViolation
  else
    let fid := db.nextFileId
    let row : FileRow :=
      ⟨fid, gid, serial, uniqueId, fileName, fileType, fileSize, telegramFileId, userId⟩
    let groups' := groupsWithTarget.map (fun g =>
      if g.gid == gid then { g with totalFiles := serial, totalSize := g.totalSize + fileSize }
      else g)
    .ok (⟨groups', row :: db.files, nextGid, fid + 1⟩, fid, serial)

/-- Embedding of `_save_file_to_db` (source lines 1114-1161).  If the group
exists, the serial is `total_files + 1`; otherwise a group row is created with
zero totals and the serial is `1`.  The file insert and the group counter
update form one transaction, committed at the end; a uniqueness violation
aborts the whole transaction with no state change and no retry. -/
def saveFileToDb (db : DB) (userId : Int) (groupName fileType fileName : String)
    (fileSize : Nat) (telegramFileId uniqueId : String) : Except SaveError (DB × Nat × Nat) :=
  match findGroup db userId groupName with
  | some g =>
      insertFileAndUpdate db db.groups g.gid (g.totalFiles + 1)
        uniqueId fileName fileType fileSize telegramFileId userId db.nextGroupId
  | none =>
      let gid := db.nextGroupId
      let newGroup : GroupRow := ⟨gid, groupName, userId, 0, 0⟩
      insertFileAndUpdate db (newGroup :: db.groups) gid 1
        uniqueId fileName fileType fileSize telegramFileId userId (gid + 1)

/-- Modelled from the spec: no file-deletion handler exists in the source file
(the delete buttons reference a callback handler that is absent), so deletion
is taken from the spec, section 3: deleting a File removes its row and
decrements the parent Group cached totals (`total_files` by 1, `total_size` by
the recorded size); a missing file id is a `NotFoundError` with no state
change. -/
def deleteFile (db : DB) (fid : Nat) : Option DB :=
  match db.files.find? (fun f => f.fid == fid) with
  | none => none
  | some f => some
      { db with
        files := db.files.filter (fun h => h.fid != fid),
        groups := db.groups.map (fun g =>
          if g.gid == f.groupId then
            { g with totalFiles := g.totalFiles - 1, totalSize := g.totalSize - f.fileSize }
          else g) }

/-- Embedding of `_create_file_link` (source lines 1163-1181): one `INSERT INTO
file_links (link_code, link_type, file_id, owner_id, expires_at, is_active)
VALUES (code, file, fid, uid, expiresAt, TRUE)`; the remaining columns take
their schema defaults (`clicks = 0`, `max_uses = NULL`, `current_uses = 0`).
A collision on the unique `link_code` raises, which is modelled as the error
case. -/
def createFileLink (links : List LinkRow) (fileId : Nat) (userId : Int)
    (expiresAt : Option Nat) (code : String) : Except Unit (List LinkRow × String) :=
  if links.any (fun l => l.linkCode == code) then .error ()
  else .ok (⟨code, "file", some fileId, none, userId, expiresAt, 0, true, none, 0⟩ :: links, code)

/-- Clause written from the words of the spec for claim C2, to be compared with
the source: the next serial is `1 + max(serial) over existing files in the
group (or 0 if none)`. -/
def specNextSerial (db : DB) (gid : Nat) : Nat :=
  1 + ((filesOf db gid).map (fun f => f.serialNumber)).foldr max 0

/-!  Link redemption.  `start_handler` (source line 452) dispatches a presented
link code to `self._handle_link_access`, but that method is absent from the
source file, so redemption is modelled from the spec, section 4.2. -/

inductive RedeemError where
  | notFound
  | revoked
  | expired
  | exhausted
deriving DecidableEq, Repr

/-- Does the link have an expiry timestamp that has passed? (spec step 3:
`expires_at` set and `now >= expires_at`). -/
def linkExpired (l : LinkRow) (now : Nat) : Bool :=
  match l.expiresAt with
  | some e => e ≤ now
  | none => false

/-- Is the use budget exhausted? (spec step 4: `max_uses` set and
`current_uses >= max_uses`). -/
def linkExhausted (l : LinkRow) : Bool :=
  match l.maxUses with
  | some m => m ≤ l.currentUses
  | none => false

/-- An `UPDATE file_links ... WHERE link_code = code`: apply `f` to every row
whose code matches. -/
def updateLink (links : List LinkRow) (code : String) (f : LinkRow → LinkRow) : List LinkRow :=
  links.map (fun l => if l.linkCode == code then f l else l)

/-- The success-path row update of redemption (spec step 5): atomically
increment `current_uses` and the click counter, deactivating when the
increment reaches `max_uses`. -/
def consumeUse (x : LinkRow) : LinkRow :=
  { x with
    currentUses := x.currentUses + 1,
    clicks := x.clicks + 1,
    isActive := match x.maxUses with
      | some m => decide (x.currentUses + 1 < m)
      | none => true }

/-- Modelled from the spec: `_handle_link_access` is called from
`start_handler` but absent from the source file; this follows the ordered
redemption policy of spec section 4.2: (1) unknown code is `NotFound`; (2) an
inactive link is `Revoked`; (3) a passed expiry deactivates the link and
returns `Expired`; (4) an exhausted use budget deactivates and returns
`Exhausted`; (5) otherwise one use is consumed atomically and the target file
reference is returned. -/
def redeemLink (links : List LinkRow) (code : String) (now : Nat) :
    List LinkRow × Except RedeemError (Option Nat) :=
  match links.find? (fun l => l.linkCode == code) with
  | none => (links, .error .notFound)
  | some l =>
      if !l.isActive then (links, .error .revoked)
      else if linkExpired l now then
        (updateLink links code (fun x => { x with isActive := false }), .error .expired)
      else if linkExhausted l then
        (updateLink links code (fun x => { x with isActive := false }), .error .exhausted)
      else
        (updateLink links code consumeUse, .ok l.fileId)

/-!  Handlers (source lines 440-983).  Each handler is modelled down to its
authorization gate and the state it touches; message formatting is elided.
The per-user `context.user_data` dictionary and the `self.bulk_sessions`
dictionary become explicit values. -/

/-- A bulk upload session as stored in `self.bulk_sessions[user_id]`
(source lines 576-582): `session_id`, `group_name`, `files`, `started_at`,
`progress`. -/
structure BulkSession where
  sessionId : String
  groupName : String
  files : List String
  startedAt : Nat
  progress : Nat
deriving DecidableEq, Repr

/-- The slice of `context.user_data` the upload flow uses: `upload_mode` and
`group_name`. -/
structure UserData where
  uploadMode : Option String
  groupName : Option String
deriving DecidableEq, Repr

/-- Structured outcome of a command handler, as seen by the transport layer. -/
inductive HandlerResult where
  | unauthorized
  | linkAccess (code : String)
  | processed
deriving DecidableEq, Repr

/-- Embedding of `start_handler` (source lines 440-512): a presented link code
is dispatched to link access before any authorization check; otherwise the
allow-list gate runs and an unauthorized user is turned away. -/
def startHandler (adminIds : List Int) (store : Int → StoreResult) (userId : Int)
    (args : List String) : HandlerResult :=
  match args with
  | linkCode :: _ => .linkAccess linkCode
  | [] =>
      if !is_user_authorized adminIds store userId then .unauthorized
      else .processed

/-- Embedding of `upload_handler` (source lines 516-551): authorization gate,
then with arguments present `upload_mode` is set to single and `group_name` to
the joined arguments. -/
def uploadHandler (adminIds : List Int) (store : Int → StoreResult) (userId : Int)
    (args : List String) (ud : UserData) : UserData × HandlerResult :=
  if !is_user_authorized adminIds store userId then (ud, .unauthorized)
  else
    match args with
    | [] => (ud, .processed)
    | _ => (⟨some ("single"), some (String.intercalate (" ") args)⟩, .processed)

/-- Embedding of `bulk_upload_handler` (source lines 553-601): authorization
gate, then with arguments present `self.bulk_sessions[user_id]` is assigned a
fresh session unconditionally, silently replacing any session already stored
under that user. -/
def bulkUploadHandler (adminIds : List Int) (store : Int → StoreResult) (userId : Int)
    (args : List String) (sessions : Int → Option BulkSession)
    (newSessionId : String) (now : Nat) : (Int → Option BulkSession) × HandlerResult :=
  if !is_user_authorized adminIds store userId then (sessions, .unauthorized)
  else
    match args with
    | [] => (sessions, .processed)
    | _ =>
        let groupName := String.intercalate (" ") args
        (fun u => if u = userId then some ⟨newSessionId, groupName, [], now, 0⟩ else sessions u,
         .processed)

/-- Embedding of the authorization gate of `search_handler` (source lines 605-608). -/
def searchHandler (adminIds : List Int) (store : Int → StoreResult) (userId : Int) :
    HandlerResult :=
  if !is_user_authorized adminIds store userId then .unauthorized else .processed

/-- Embedding of the authorization gate of `my_files_handler` (source lines 688-694). -/
def myFilesHandler (adminIds : List Int) (store : Int → StoreResult) (userId : Int) :
    HandlerResult :=
  if !is_user_authorized adminIds store userId then .unauthorized else .processed

/-- Embedding of the authorization gate of `settings_handler` (source lines 825-831). -/
def settingsHandler (adminIds : List Int) (store : Int → StoreResult) (userId : Int) :
    HandlerResult :=
  if !is_user_authorized adminIds store userId then .unauthorized else .processed

/-- Embedding of the authorization gate of `my_links_handler` (source lines 856-862). -/
def myLinksHandler (adminIds : List Int) (store : Int → StoreResult) (userId : Int) :
    HandlerResult :=
  if !is_user_authorized adminIds store userId then .unauthorized else .processed

/-- Embedding of `leaderboard_handler` (source lines 764-821): the body queries
the leaderboard and replies; it contains no call to `is_user_authorized`, so
every user is served. -/
def leaderboardHandler (adminIds : List Int) (store : Int → StoreResult) (userId : Int) :
    HandlerResult :=
  .processed

/-- Embedding of `help_handler` (source lines 1221-1299): like the leaderboard
handler it contains no authorization check. -/
def helpHandler (adminIds : List Int) (store : Int → StoreResult) (userId : Int) :
    HandlerResult :=
  .processed

/-- Structured outcome of the file-message flow. -/
inductive FHResult where
  | pendingHandled
  | unauthorized
  | unsupportedType
  | fileTooLarge
  | bulkFile
  | singleDone (linkCode : String) (serialNumber : Nat)
  | singleFailed
  | noSession
deriving DecidableEq, Repr

/-- The state a file-message handler can touch, plus its outcome. -/
structure BotEffect where
  db : DB
  links : List LinkRow
  userData : UserData
  result : FHResult
deriving DecidableEq, Repr

/-- Embedding of `_handle_single_file` (source lines 985-1091): save the file
(serial allocation and counter update in one transaction), create a share link
whose expiry comes from `_calculate_expiry` on the default-expiry setting, and
clear `context.user_data` only when everything succeeded; any exception along
the way is caught and reported as a failed upload.  A missing `group_name` key
raises `KeyError` inside the `try` block, hence the failure result.  The
storage-channel forwarding steps are elided (the storage write is external to
the registry). -/
def handleSingleFile (db : DB) (links : List LinkRow) (ud : UserData) (userId : Int)
    (fileType fileName : String) (fileSize : Nat) (telegramFileId uniqueId code : String)
    (defaultExpiry : String) (now : Nat) : BotEffect :=
  match ud.groupName with
  | none => ⟨db, links, ud, .singleFailed⟩
  | some groupName =>
      match saveFileToDb db userId groupName fileType fileName fileSize telegramFileId uniqueId with
      | .error _ => ⟨db, links, ud, .singleFailed⟩
      | .ok (db', fid, serial) =>
          let expiresAt := calculateExpiry defaultExpiry now
          match createFileLink links fid userId expiresAt code with
          | .error _ => ⟨db', links, ud, .singleFailed⟩
          | .ok (links', linkCode) => ⟨db', links', ⟨none, none⟩, .singleDone linkCode serial⟩

/-- Embedding of `file_handler` (source lines 938-983), in source order: a
pending input is consumed first; then the authorization gate; then
`extract_file_data` (modelled as `fileData`, whose `none` is an unsupported
attachment); then the `file_size > MAX_FILE_SIZE` validation; then dispatch to
the bulk session, the single-upload mode, or a no-session reply.  The bulk
branch marks its outcome only, since `_handle_bulk_file` is absent from the
source file. -/
def fileHandler (adminIds : List Int) (store : Int → StoreResult) (userId : Int)
    (pendingInput : Bool) (fileData : Option (String × String × Nat))
    (bulkSession : Option BulkSession) (ud : UserData) (db : DB) (links : List LinkRow)
    (telegramFileId uniqueId code : String) (defaultExpiry : String) (now : Nat) : BotEffect :=
  if pendingInput then ⟨db, links, ud, .pendingHandled⟩
  else if !is_user_authorized adminIds store userId then ⟨db, links, ud, .unauthorized⟩
  else
    match fileData with
    | none => ⟨db, links, ud, .unsupportedType⟩
    | some (fileType, fileName, fileSize) =>
        if fileSize > MAX_FILE_SIZE then ⟨db, links, ud, .fileTooLarge⟩
        else if bulkSession.isSome then ⟨db, links, ud, .bulkFile⟩
        else if ud.uploadMode == some "single" then
          handleSingleFile db links ud userId fileType fileName fileSize
            telegramFileId uniqueId code defaultExpiry now
        else ⟨db, links, ud, .noSession⟩

/-- The combined per-user session state: the `upload_mode`/`group_name` slice
of `context.user_data` and the `self.bulk_sessions[user_id]` entry.  The two
stores are disjoint in the source: `upload_handler` writes only `user_data`
and `bulk_upload_handler` writes only `bulk_sessions`. -/
structure UserSessions where
  userData : UserData
  bulkSession : Option BulkSession
deriving DecidableEq, Repr

/-- `upload_handler` viewed on the combined per-user state (source lines
516-551): it touches `context.user_data` only and never reads or writes
`self.bulk_sessions`. -/
def uploadHandlerS (adminIds : List Int) (store : Int → StoreResult) (userId : Int)
    (args : List String) (st : UserSessions) : UserSessions × HandlerResult :=
  let res := uploadHandler adminIds store userId args st.userData
  (⟨res.1, st.bulkSession⟩, res.2)

/-- `bulk_upload_handler` viewed on the combined per-user state (source lines
553-601): it assigns `self.bulk_sessions[user_id]` and never reads or writes
`context.user_data`. -/
def bulkUploadHandlerS (adminIds : List Int) (store : Int → StoreResult) (userId : Int)
    (args : List String) (st : UserSessions) (newSessionId : String) (now : Nat) :
    UserSessions × HandlerResult :=
  let res := bulkUploadHandler adminIds store userId args
    (fun u => if u = userId then st.bulkSession else none) newSessionId now
  (⟨st.userData, res.1 userId⟩, res.2)

/-!  Reachability and invariants of the database. -/

/-- The databases reachable through the operations of the program: the initial
empty database, successful file ingestions, and (spec-modelled) file
deletions.  A failed ingestion is rolled back and does not change the
database, so it needs no constructor. -/
inductive Reach : DB → Prop where
  | origin : Reach dbInit
  | ingest {db : DB} {u : Int} {gn ft fn tf uq : String} {fs : Nat} {db' : DB} {fid s : Nat} :
      Reach db → saveFileToDb db u gn ft fn fs tf uq = .ok (db', fid, s) → Reach db'
  | remove {db : DB} {fid : Nat} {db' : DB} :
      Reach db → deleteFile db fid = some db' → Reach db'

/-- The databases reachable by ingestion alone (no deletions). -/
inductive ReachI : DB → Prop where
  | origin : ReachI dbInit
  | ingest {db : DB} {u : Int} {gn ft fn tf uq : String} {fs : Nat} {db' : DB} {fid s : Nat} :
      ReachI db → saveFileToDb db u gn ft fn fs tf uq = .ok (db', fid, s) → ReachI db'

/-- Structural well-formedness of the database: primary keys are unique and
below their sequences, and every file references an existing group. -/
def dbWF (db : DB) : Prop :=
  (db.groups.map (fun g => g.gid)).Nodup ∧
  (db.files.map (fun f => f.fid)).Nodup ∧
  (∀ g ∈ db.groups, g.gid < db.nextGroupId) ∧
  (∀ f ∈ db.files, f.fid < db.nextFileId) ∧
  (∀ f ∈ db.files, ∃ g ∈ db.groups, f.groupId = g.gid)

/-- The derived-state invariant of claim C3: for every group, the cached
`total_files` and `total_size` equal the count and the byte-size sum of its
non-deleted files. -/
def groupInvariant (db : DB) : Prop :=
  ∀ g ∈ db.groups, g.totalFiles = (filesOf db g.gid).length ∧
    g.totalSize = ((filesOf db g.gid).map (fun f => f.fileSize)).sum

/-- Per-group upper bound on serials: every file serial is at most the cached
count of its group.  This holds along ingestion-only histories and yields
strict monotonicity of allocation. -/
def serialBound (db : DB) : Prop :=
  ∀ g ∈ db.groups, ∀ f ∈ db.files, f.groupId = g.gid → f.serialNumber ≤ g.totalFiles

/-!  Concurrent serial allocation, claim C1.  A run of `_save_file_to_db` for a
fixed group splits into two database interactions: the `SELECT total_files`
read, and the commit of `INSERT (serial) + UPDATE total_files = serial` which
the `UNIQUE(group_id, serial_number)` constraint makes atomic and exclusive.
Under READ COMMITTED each read observes the currently committed counter, and
each commit either installs its row (no committed row with that serial) or
aborts the whole transaction.  Interleavings of concurrent ingestions are
therefore modelled as sequences of `readCount` and `commitTxn` events of
transaction ids. -/

inductive AllocOp where
  | readCount (tid : Nat)
  | commitTxn (tid : Nat)
deriving DecidableEq, Repr

/-- The committed state of one group plus in-flight transactions: the committed
`total_files` counter, the committed set of serials, the counter value each
in-flight transaction has read, and how many ingestions have committed
successfully. -/
structure AllocState where
  totalFiles : Nat
  serials : Finset Nat
  pendingReads : List (Nat × Nat)
  successCount : Nat
deriving DecidableEq

/-- Empty group, no in-flight transactions. -/
def allocInit : AllocState := ⟨0, ∅, [], 0⟩

/-- One scheduling step.  A `readCount` records the committed counter for its
transaction (the code computes `serial = total_files + 1` from it).  A
`commitTxn` attempts the insert-and-update commit: if the computed serial is
already taken the unique constraint aborts the transaction (rollback, no state
change besides the transaction ending); otherwise the row and the counter
update commit together. -/
def allocStep (s : AllocState) : AllocOp → AllocState
  | .readCount tid =>
      { s with pendingReads := (tid, s.totalFiles) :: s.pendingReads.filter (fun p => p.1 != tid) }
  | .commitTxn tid =>
      match s.pendingReads.find? (fun p => p.1 == tid) with
      | none => s
      | some p =>
          if p.2 + 1 ∈ s.serials then
            { s with pendingReads := s.pendingReads.filter (fun q => q.1 != tid) }
          else
            { totalFiles := p.2 + 1, serials := insert (p.2 + 1) s.serials,
              pendingReads := s.pendingReads.filter (fun q => q.1 != tid),
              successCount := s.successCount + 1 }

/-- Run a whole schedule from the empty group. -/
def allocRun (ops : List AllocOp) : AllocState :=
  ops.foldl allocStep allocInit

/-- The inductive invariant of the allocation model: the committed serials are
exactly `{1, ..., total_files}`, every in-flight read is of a counter value no
newer than the committed one, and the committed counter counts the successes. -/
def allocInv (s : AllocState) : Prop :=
  s.serials = Finset.Icc 1 s.totalFiles ∧
  (∀ p ∈ s.pendingReads, p.2 ≤ s.totalFiles) ∧
  s.successCount = s.totalFiles

/-!  Theorems. -/

/-- C9: the authorization check is store-independent for admins and fail-closed
for non-admins: an admin id is authorized no matter what the registry store
does, and for a non-admin a store failure during the lookup yields a denial,
never a grant. -/
theorem is_user_authorized_fail_closed (adminIds : List Int) (store : Int → StoreResult)
    (userId : Int) :
    (userId ∈ adminIds →
      ∀ store' : Int → StoreResult, is_user_authorized adminIds store' userId = true) ∧
    (userId ∉ adminIds → store userId = .failure →
      is_user_authorized adminIds store userId = false) := by
  constructor
  · intro h store'
    simp [is_user_authorized, is_admin, h]
  · intro h hfail
    simp [is_user_authorized, is_admin, h, hfail]

/-- Witness for C9 at concrete inputs: user 7 is the sole admin and the store
always fails; 7 is authorized, 9 is denied. -/
theorem is_user_authorized_fail_closed_witness :
    ((7 : Int) ∈ [(7 : Int)] ∧ is_user_authorized [7] (fun _ => .failure) 7 = true) ∧
    ((9 : Int) ∉ [(7 : Int)] ∧ (fun _ => StoreResult.failure) (9 : Int) = .failure ∧
      is_user_authorized [7] (fun _ => .failure) 9 = false) :=
  ⟨⟨by decide, (is_user_authorized_fail_closed [7] (fun _ => .failure) 7).1 (by decide) _⟩,
   by decide, rfl,
   (is_user_authorized_fail_closed [7] (fun _ => .failure) 9).2 (by decide) rfl⟩

/-- C10: every expiry-setting string other than the five recognized durations
produces no expiry, the same result as the explicit never setting. -/
theorem calculateExpiry_unrecognized_none (s : String) (now : Nat)
    (h5 : s ≠ "5m") (h10 : s ≠ "10m") (h30 : s ≠ "30m") (h1h : s ≠ "1h") (h1d : s ≠ "1d") :
    calculateExpiry s now = none ∧ calculateExpiry s now = calculateExpiry ("never") now := by
  have h : calculateExpiry s now = none := by
    unfold calculateExpiry
    split_ifs <;> simp_all
  exact ⟨h, by rw [h]; simp [calculateExpiry]⟩

/-- Witness for C10: the malformed setting 2h yields no expiry. -/
theorem calculateExpiry_unrecognized_none_witness :
    ("2h" ≠ "5m" ∧ "2h" ≠ "10m" ∧ "2h" ≠ "30m" ∧ "2h" ≠ "1h" ∧ "2h" ≠ "1d") ∧
    calculateExpiry ("2h") 0 = none :=
  ⟨⟨by decide, by decide, by decide, by decide, by decide⟩,
   (calculateExpiry_unrecognized_none ("2h") 0 (by decide) (by decide) (by decide)
     (by decide) (by decide)).1⟩

/-- C6: issuing a link stores the expiry produced by the expiry calculation:
no timestamp under the never setting, issuance time plus the recognized
duration otherwise, and the created row carries exactly that value together
with `is_active = TRUE`, no use bound, and zero counters. -/
theorem link_expiry_stored (now : Nat) (links : List LinkRow) (fileId : Nat) (userId : Int)
    (code : String) (expiresAt : Option Nat)
    (hfresh : links.any (fun l => l.linkCode == code) = false) :
    calculateExpiry ("never") now = none ∧
    calculateExpiry ("5m") now = some (now + 300) ∧
    calculateExpiry ("10m") now = some (now + 600) ∧
    calculateExpiry ("30m") now = some (now + 1800) ∧
    calculateExpiry ("1h") now = some (now + 3600) ∧
    calculateExpiry ("1d") now = some (now + 86400) ∧
    createFileLink links fileId userId expiresAt code =
      .ok (⟨code, "file", some fileId, none, userId, expiresAt, 0, true, none, 0⟩ :: links, code) := by
  refine ⟨?_, ?_, ?_, ?_, ?_, ?_, ?_⟩ <;>
    simp [calculateExpiry, createFileLink, hfresh]

/-- Witness for C6: issuing on an empty table with a five-minute expiry. -/
theorem link_expiry_stored_witness :
    (([] : List LinkRow).any (fun l => l.linkCode == "c1") = false) ∧
    calculateExpiry ("5m") 1000 = some 1300 ∧
    createFileLink [] 1 7 (some 1300) ("c1") =
      .ok ([⟨"c1", "file", some 1, none, 7, some 1300, 0, true, none, 0⟩], "c1") :=
  ⟨rfl,
   (link_expiry_stored 1000 [] 1 7 ("c1") (some 1300) rfl).2.1,
   (link_expiry_stored 1000 [] 1 7 ("c1") (some 1300) rfl).2.2.2.2.2.2⟩

/-- Counterexample for C4: the claim says every command handler rejects a
non-admin, non-allow-listed user, but the leaderboard handler contains no
authorization check at all.  With an empty admin list and a store that denies
everyone, user 42 is not authorized and is still served. -/
theorem leaderboardHandler_skips_auth :
    is_user_authorized [] (fun _ => .failure) 42 = false ∧
    leaderboardHandler [] (fun _ => .failure) 42 = .processed ∧
    HandlerResult.processed ≠ HandlerResult.unauthorized :=
  ⟨rfl, rfl, by decide⟩

/-- C4 (amended): with an allow-list in force, a non-admin, non-allow-listed
user is rejected by every command handler that performs an authorization check
(start without a link code, upload, bulk upload, search, my-files, settings,
my-links, and the file-message handler), while the leaderboard and help
handlers perform no check and serve the user, and a presented link code is
dispatched to link access before any authorization check runs. -/
theorem allowList_gating (adminIds : List Int) (store : Int → StoreResult) (userId : Int)
    (hunauth : is_user_authorized adminIds store userId = false) :
    startHandler adminIds store userId [] = .unauthorized ∧
    (∀ (c : String) (rest : List String),
      startHandler adminIds store userId (c :: rest) = .linkAccess c) ∧
    (∀ (args : List String) (ud : UserData),
      uploadHandler adminIds store userId args ud = (ud, .unauthorized)) ∧
    (∀ (args : List String) (sessions : Int → Option BulkSession) (sid : String) (now : Nat),
      bulkUploadHandler adminIds store userId args sessions sid now = (sessions, .unauthorized)) ∧
    searchHandler adminIds store userId = .unauthorized ∧
    myFilesHandler adminIds store userId = .unauthorized ∧
    settingsHandler adminIds store userId = .unauthorized ∧
    myLinksHandler adminIds store userId = .unauthorized ∧
    (∀ (fileData : Option (String × String × Nat)) (bulkSession : Option BulkSession)
        (ud : UserData) (db : DB) (links : List LinkRow) (tfid uq code de : String) (now : Nat),
      fileHandler adminIds store userId false fileData bulkSession ud db links tfid uq code de now =
        ⟨db, links, ud, .unauthorized⟩) ∧
    leaderboardHandler adminIds store userId = .processed ∧
    helpHandler adminIds store userId = .processed := by
  refine ⟨?_, ?_, ?_, ?_, ?_, ?_, ?_, ?_, ?_, rfl, rfl⟩ <;>
    simp [startHandler, uploadHandler, bulkUploadHandler, searchHandler, myFilesHandler,
      settingsHandler, myLinksHandler, fileHandler, hunauth]

/-- Witness for C4: user 42 with an empty admin list and an always-failing
store is unauthorized, and the upload handler turns it away while the
leaderboard handler serves it. -/
theorem allowList_gating_witness :
    is_user_authorized [] (fun _ => .failure) 42 = false ∧
    uploadHandler [] (fun _ => .failure) 42 [] ⟨none, none⟩ = (⟨none, none⟩, .unauthorized) ∧
    leaderboardHandler [] (fun _ => .failure) 42 = .processed :=
  ⟨rfl,
   (allowList_gating [] (fun _ => .failure) 42 rfl).2.2.1 [] ⟨none, none⟩,
   (allowList_gating [] (fun _ => .failure) 42 rfl).2.2.2.2.2.2.2.2.2.2⟩

/-- C7: a file whose size exceeds the configured maximum is rejected by the
file-message handler before any database interaction: the database, the links
table and the user data are unchanged, and for an authorized user the outcome
is the too-large validation error. -/
theorem oversize_rejected (adminIds : List Int) (store : Int → StoreResult) (userId : Int)
    (fileType fileName : String) (fileSize : Nat) (bulkSession : Option BulkSession)
    (ud : UserData) (db : DB) (links : List LinkRow) (tfid uq code de : String) (now : Nat)
    (hsize : fileSize > MAX_FILE_SIZE) :
    (fileHandler adminIds store userId false (some (fileType, fileName, fileSize)) bulkSession
        ud db links tfid uq code de now).db = db ∧
    (fileHandler adminIds store userId false (some (fileType, fileName, fileSize)) bulkSession
        ud db links tfid uq code de now).links = links ∧
    (fileHandler adminIds store userId false (some (fileType, fileName, fileSize)) bulkSession
        ud db links tfid uq code de now).userData = ud ∧
    (is_user_authorized adminIds store userId = true →
      (fileHandler adminIds store userId false (some (fileType, fileName, fileSize)) bulkSession
          ud db links tfid uq code de now).result = .fileTooLarge) := by
  cases hauth : is_user_authorized adminIds store userId with
  | false => simp [fileHandler, hauth]
  | true => simp [fileHandler, hauth, hsize]

/-- Witness for C7: a file one byte over the limit, sent by the admin user 7,
is rejected with the too-large result and leaves the empty database empty. -/
theorem oversize_rejected_witness :
    MAX_FILE_SIZE + 1 > MAX_FILE_SIZE ∧
    (fileHandler [7] (fun _ => .failure) 7 false (some ("document", "big", MAX_FILE_SIZE + 1))
        none ⟨none, none⟩ dbInit [] ("t") ("u") ("c") ("never") 0).db = dbInit ∧
    (fileHandler [7] (fun _ => .failure) 7 false (some ("document", "big", MAX_FILE_SIZE + 1))
        none ⟨none, none⟩ dbInit [] ("t") ("u") ("c") ("never") 0).result = .fileTooLarge :=
  ⟨Nat.lt_succ_self _,
   (oversize_rejected [7] (fun _ => .failure) 7 ("document") ("big") (MAX_FILE_SIZE + 1)
     none ⟨none, none⟩ dbInit [] ("t") ("u") ("c") ("never") 0 (Nat.lt_succ_self _)).1,
   (oversize_rejected [7] (fun _ => .failure) 7 ("document") ("big") (MAX_FILE_SIZE + 1)
     none ⟨none, none⟩ dbInit [] ("t") ("u") ("c") ("never") 0 (Nat.lt_succ_self _)).2.2.2 rfl⟩

/-- Counterexample for C8: the claim says at most one upload session per user
exists at any time and that starting a new bulk session silently replaces the
existing session, discarding its state; but the two session stores are
disjoint in the source: an upload command puts a single-mode session into the
per-user data, and a following bulk command fills the bulk-session entry
without touching that data, so afterwards both sessions exist for the user at
once — the single-mode state is shadowed by the dispatch order, not
discarded. -/
theorem upload_session_claim_fails :
    uploadHandlerS [7] (fun _ => .failure) 7 ["g1"] ⟨⟨none, none⟩, none⟩ =
      (⟨⟨some ("single"), some ("g1")⟩, none⟩, .processed) ∧
    bulkUploadHandlerS [7] (fun _ => .failure) 7 ["g2"]
        ⟨⟨some ("single"), some ("g1")⟩, none⟩ ("sid") 5 =
      (⟨⟨some ("single"), some ("g1")⟩, some ⟨"sid", "g2", [], 5, 0⟩⟩, .processed) ∧
    ((⟨⟨some ("single"), some ("g1")⟩, some ⟨"sid", "g2", [], 5, 0⟩⟩ :
        UserSessions).userData.uploadMode = some ("single") ∧
      (⟨⟨some ("single"), some ("g1")⟩, some ⟨"sid", "g2", [], 5, 0⟩⟩ :
        UserSessions).bulkSession ≠ none) ∧
    (⟨some ("single"), some ("g1")⟩ : UserData) ≠ ⟨none, none⟩ :=
  ⟨rfl, rfl, ⟨rfl, by decide⟩, by decide⟩

/-- C8 (amended): the bulk-session store keeps at most one bulk entry per user
and starting a new bulk session silently replaces that user's entry without
failing or asking for confirmation, leaving other users' entries untouched;
but it does not clear single-mode upload state in the per-user data, so a
single-mode session and a bulk session can coexist for one user (the bulk
entry merely shadows the single mode in the file-handler dispatch); a fully
successful single-mode ingestion clears the user data back to the idle
state. -/
theorem session_replacement (adminIds : List Int) (store : Int → StoreResult) (userId : Int)
    (arg : String) (args : List String) (st : UserSessions)
    (newSessionId : String) (now : Nat)
    (hauth : is_user_authorized adminIds store userId = true) :
    (bulkUploadHandlerS adminIds store userId (arg :: args) st newSessionId now).2 =
      .processed ∧
    (bulkUploadHandlerS adminIds store userId (arg :: args) st newSessionId now).1.bulkSession =
      some ⟨newSessionId, String.intercalate (" ") (arg :: args), [], now, 0⟩ ∧
    (bulkUploadHandlerS adminIds store userId (arg :: args) st newSessionId now).1.userData =
      st.userData ∧
    (∀ (sessions : Int → Option BulkSession) (u : Int), u ≠ userId →
      (bulkUploadHandler adminIds store userId (arg :: args) sessions newSessionId now).1 u =
        sessions u) ∧
    (∀ (db : DB) (links : List LinkRow) (ud : UserData) (ft fn : String) (fs : Nat)
        (tfid uq code de : String) (n : Nat) (lc : String) (s : Nat),
      (handleSingleFile db links ud userId ft fn fs tfid uq code de n).result = .singleDone lc s →
      (handleSingleFile db links ud userId ft fn fs tfid uq code de n).userData = ⟨none, none⟩) := by
  refine ⟨?_, ?_, ?_, ?_, ?_⟩
  · simp [bulkUploadHandlerS, bulkUploadHandler, hauth]
  · simp [bulkUploadHandlerS, bulkUploadHandler, hauth]
  · simp [bulkUploadHandlerS, bulkUploadHandler, hauth]
  · intro sessions u hu
    simp [bulkUploadHandler, hauth, hu]
  · intro db links ud ft fn fs tfid uq code de n lc s h
    revert h
    unfold handleSingleFile
    split
    · simp
    · split
      · simp
      · dsimp only
        split
        · simp
        · intro _
          rfl

/-- Witness for C8: user 7 (admin) holds both a single-mode state and a bulk
entry; a new bulk command replaces the bulk entry, reports success, and leaves
the single-mode state in place. -/
theorem session_replacement_witness :
    is_user_authorized [7] (fun _ => .failure) 7 = true ∧
    (bulkUploadHandlerS [7] (fun _ => .failure) 7 ["movies"]
        ⟨⟨some ("single"), some ("g1")⟩, some ⟨"old", "oldgroup", [], 0, 3⟩⟩
        ("sid2") 50).1.bulkSession =
      some ⟨"sid2", String.intercalate (" ") ["movies"], [], 50, 0⟩ ∧
    (bulkUploadHandlerS [7] (fun _ => .failure) 7 ["movies"]
        ⟨⟨some ("single"), some ("g1")⟩, some ⟨"old", "oldgroup", [], 0, 3⟩⟩
        ("sid2") 50).1.userData =
      ⟨some ("single"), some ("g1")⟩ ∧
    (bulkUploadHandlerS [7] (fun _ => .failure) 7 ["movies"]
        ⟨⟨some ("single"), some ("g1")⟩, some ⟨"old", "oldgroup", [], 0, 3⟩⟩
        ("sid2") 50).2 = .processed :=
  ⟨rfl,
   (session_replacement [7] (fun _ => .failure) 7 ("movies") []
     ⟨⟨some ("single"), some ("g1")⟩, some ⟨"old", "oldgroup", [], 0, 3⟩⟩
     ("sid2") 50 rfl).2.1,
   (session_replacement [7] (fun _ => .failure) 7 ("movies") []
     ⟨⟨some ("single"), some ("g1")⟩, some ⟨"old", "oldgroup", [], 0, 3⟩⟩
     ("sid2") 50 rfl).2.2.1,
   (session_replacement [7] (fun _ => .failure) 7 ("movies") []
     ⟨⟨some ("single"), some ("g1")⟩, some ⟨"old", "oldgroup", [], 0, 3⟩⟩
     ("sid2") 50 rfl).1⟩

/-- Finding a link by code still finds it, updated, after an update keyed on
that code, provided the update preserves codes. -/
theorem find?_updateLink {links : List LinkRow} {code : String} {l : LinkRow}
    {f : LinkRow → LinkRow} (hcode : ∀ x, (f x).linkCode = x.linkCode)
    (h : links.find? (fun x => x.linkCode == code) = some l) :
    (updateLink links code f).find? (fun x => x.linkCode == code) = some (f l) := by
  induction links with
  | nil => simp at h
  | cons a t ih =>
      by_cases ha : (a.linkCode == code) = true
      · simp only [List.find?_cons, ha] at h
        obtain rfl : a = l := by injection h
        simp only [updateLink, List.map_cons, ha, if_true]
        simp only [List.find?_cons, hcode, ha]
      · rw [Bool.not_eq_true] at ha
        simp only [List.find?_cons, ha] at h
        simp only [updateLink, List.map_cons, ha, Bool.false_eq_true, if_false]
        simp only [List.find?_cons, ha]
        exact ih h

/-- Counterexample for C5: the claim says a second redemption attempt after an
expiry-driven deactivation returns Expired; under the ordered policy the
inactive link is reported as Revoked (step 2 runs before step 3), which is
neither Expired nor NotFound. -/
theorem redeem_expired_then_revoked :
    redeemLink [⟨"abc", "file", some 1, none, 7, some 100, 0, true, none, 0⟩] ("abc") 100 =
      ([⟨"abc", "file", some 1, none, 7, some 100, 0, false, none, 0⟩], .error .expired) ∧
    redeemLink [⟨"abc", "file", some 1, none, 7, some 100, 0, false, none, 0⟩] ("abc") 101 =
      ([⟨"abc", "file", some 1, none, 7, some 100, 0, false, none, 0⟩], .error .revoked) ∧
    RedeemError.revoked ≠ RedeemError.expired ∧
    RedeemError.revoked ≠ RedeemError.notFound :=
  ⟨rfl, rfl, by decide, by decide⟩

/-- C5 (amended): for a link with an expiry timestamp, redemption strictly
before the timestamp succeeds (when the link is active with budget left);
redemption at or after the timestamp deactivates the link and returns Expired;
the deactivation is permanent: a second attempt leaves the state unchanged and
returns Revoked, not NotFound and not Expired — any inactive link redeems to
Revoked. -/
theorem redeem_expiry_behavior (links : List LinkRow) (code : String) (now e : Nat) (l : LinkRow)
    (hfind : links.find? (fun x => x.linkCode == code) = some l) :
    (l.isActive = true → l.expiresAt = some e → now < e → linkExhausted l = false →
      redeemLink links code now = (updateLink links code consumeUse, .ok l.fileId)) ∧
    (l.isActive = true → l.expiresAt = some e → e ≤ now →
      redeemLink links code now =
        (updateLink links code (fun x => { x with isActive := false }), .error .expired) ∧
      (redeemLink links code now).1.find? (fun x => x.linkCode == code) =
        some { l with isActive := false } ∧
      (∀ now' : Nat, redeemLink (redeemLink links code now).1 code now' =
        ((redeemLink links code now).1, .error .revoked))) ∧
    (l.isActive = false → redeemLink links code now = (links, .error .revoked)) := by
  refine ⟨?_, ?_, ?_⟩
  · intro hact hexp hlt hexh
    have h1 : linkExpired l now = false := by
      simp [linkExpired, hexp]
      omega
    simp [redeemLink, hfind, hact, h1, hexh]
  · intro hact hexp hle
    have h1 : linkExpired l now = true := by
      simp [linkExpired, hexp, hle]
    have h2 : redeemLink links code now =
        (updateLink links code (fun x => { x with isActive := false }), .error .expired) := by
      simp [redeemLink, hfind, hact, h1]
    have h3 : (updateLink links code (fun x => { x with isActive := false })).find?
        (fun x => x.linkCode == code) = some { l with isActive := false } :=
      find?_updateLink (fun x => rfl) hfind
    refine ⟨h2, ?_, ?_⟩
    · rw [h2]
      exact h3
    · intro now'
      rw [h2]
      simp [redeemLink, h3]
  · intro hact
    simp [redeemLink, hfind, hact]

/-- The initial allocation state satisfies the allocation invariant. -/
theorem allocInv_allocInit : allocInv allocInit := by
  refine ⟨?_, ?_, rfl⟩
  · show (∅ : Finset Nat) = Finset.Icc 1 0
    exact (Finset.Icc_eq_empty (by omega)).symm
  · intro p hp
    simp [allocInit] at hp

/-- Every scheduling step preserves the allocation invariant. -/
theorem allocStep_inv (s : AllocState) (op : AllocOp) (h : allocInv s) :
    allocInv (allocStep s op) := by
  obtain ⟨hser, hpend, hcount⟩ := h
  cases op with
  | readCount tid =>
      refine ⟨hser, ?_, hcount⟩
      intro p hp
      rcases List.mem_cons.mp hp with rfl | hp'
      · exact le_refl _
      · exact hpend _ (List.mem_of_mem_filter hp')
  | commitTxn tid =>
      cases hfind : s.pendingReads.find? (fun p => p.1 == tid) with
      | none =>
          simp only [allocStep, hfind]
          exact ⟨hser, hpend, hcount⟩
      | some p =>
          have hple : p.2 ≤ s.totalFiles := hpend _ (List.mem_of_find?_eq_some hfind)
          by_cases hmem : p.2 + 1 ∈ s.serials
          · simp only [allocStep, hfind, if_pos hmem]
            exact ⟨hser, fun q hq => hpend _ (List.mem_of_mem_filter hq), hcount⟩
          · simp only [allocStep, hfind, if_neg hmem]
            have hp2 : p.2 = s.totalFiles := by
              rcases Nat.lt_or_ge p.2 s.totalFiles with hlt | hge
              · exact absurd (hser ▸ Finset.mem_Icc.mpr ⟨by omega, by omega⟩) hmem
              · omega
            refine ⟨?_, ?_, ?_⟩
            · show insert (p.2 + 1) s.serials = Finset.Icc 1 (p.2 + 1)
              rw [hser, hp2]
              exact Nat.Icc_insert_succ_right (by omega)
            · intro q hq
              have hq2 : q.2 ≤ s.totalFiles := hpend _ (List.mem_of_mem_filter hq)
              show q.2 ≤ p.2 + 1
              omega
            · show s.successCount + 1 = p.2 + 1
              omega

/-- Any schedule run from the empty group satisfies the allocation invariant. -/
theorem allocRun_inv (ops : List AllocOp) : allocInv (allocRun ops) := by
  have main : ∀ (l : List AllocOp) (s : AllocState),
      allocInv s → allocInv (l.foldl allocStep s) := by
    intro l
    induction l with
    | nil => exact fun s hs => hs
    | cons op t ih => exact fun s hs => ih _ (allocStep_inv s op hs)
  exact main ops allocInit allocInv_allocInit

/-- C1: for every interleaving of concurrent file ingestions into one group
starting from the empty group, the committed serial numbers after the schedule
are exactly the set one to N, where N counts the ingestions that completed
successfully: no duplicates (the serials form a set of that exact cardinality)
and no gaps from successful allocations. -/
theorem serials_exact_after_success (ops : List AllocOp) :
    (allocRun ops).serials = Finset.Icc 1 ((allocRun ops).successCount) ∧
    ((allocRun ops).serials).card = (allocRun ops).successCount := by
  obtain ⟨hser, hpend, hcount⟩ := allocRun_inv ops
  rw [hser, hcount]
  refine ⟨rfl, ?_⟩
  rw [Nat.card_Icc]
  omega

/-- Witness for C5: a concrete link expiring at 100 redeems successfully at 50
and returns Expired at 100 with the row deactivated. -/
theorem redeem_expiry_behavior_witness :
    ([(⟨"abc", "file", some 1, none, 7, some 100, 0, true, none, 0⟩ : LinkRow)].find?
      (fun x => x.linkCode == "abc") =
        some ⟨"abc", "file", some 1, none, 7, some 100, 0, true, none, 0⟩) ∧
    redeemLink [⟨"abc", "file", some 1, none, 7, some 100, 0, true, none, 0⟩] ("abc") 50 =
      ([⟨"abc", "file", some 1, none, 7, some 100, 1, true, none, 1⟩], .ok (some 1)) ∧
    redeemLink [⟨"abc", "file", some 1, none, 7, some 100, 0, true, none, 0⟩] ("abc") 100 =
      ([⟨"abc", "file", some 1, none, 7, some 100, 0, false, none, 0⟩], .error .expired) := by
  refine ⟨rfl, ?_, ?_⟩
  · have h := (redeem_expiry_behavior
      [⟨"abc", "file", some 1, none, 7, some 100, 0, true, none, 0⟩] ("abc") 50 100
      ⟨"abc", "file", some 1, none, 7, some 100, 0, true, none, 0⟩ rfl).1 rfl rfl
      (by omega) rfl
    simpa [updateLink, consumeUse] using h
  · have h := ((redeem_expiry_behavior
      [⟨"abc", "file", some 1, none, 7, some 100, 0, true, none, 0⟩] ("abc") 100 100
      ⟨"abc", "file", some 1, none, 7, some 100, 0, true, none, 0⟩ rfl).2.1 rfl rfl
      (le_refl 100)).1
    simpa [updateLink] using h

/-- Splitting the per-group file view over a cons cell. -/
theorem filesIn_cons (row : FileRow) (files : List FileRow) (gid : Nat) :
    filesIn (row :: files) gid =
      if row.groupId == gid then row :: filesIn files gid else filesIn files gid := by
  simp [filesIn, List.filter_cons]

/-- The per-group file view commutes with a row filter. -/
theorem filesIn_filter (files : List FileRow) (gid : Nat) (p : FileRow → Bool) :
    filesIn (files.filter p) gid = (filesIn files gid).filter p := by
  unfold filesIn
  rw [List.filter_filter, List.filter_filter]
  exact List.filter_congr (fun a _ => Bool.and_comm _ _)

/-- Updating group rows without touching their ids leaves the id column as it was. -/
theorem map_gid_of_update (G : List GroupRow) (f : GroupRow → GroupRow)
    (hf : ∀ g, (f g).gid = g.gid) :
    (G.map f).map (fun g => g.gid) = G.map (fun g => g.gid) := by
  induction G with
  | nil => rfl
  | cons a t ih => simp [hf, ih]

/-- The row found by the owner-and-name lookup is a member carrying that owner
and name. -/
theorem findGroup_eq_some {db : DB} {u : Int} {gn : String} {g : GroupRow}
    (h : findGroup db u gn = some g) :
    g ∈ db.groups ∧ g.ownerId = u ∧ g.name = gn := by
  refine ⟨List.mem_of_find?_eq_some h, ?_⟩
  have hp := List.find?_some h
  simp at hp
  exact hp

/-- Removing one row, identified by its unique primary key, decrements the
count by one and the size sum by exactly that row's size. -/
theorem remove_one_counts (l : List FileRow) (f : FileRow)
    (hnd : (l.map (fun h => h.fid)).Nodup) (hmem : f ∈ l) :
    (l.filter (fun h => h.fid != f.fid)).length + 1 = l.length ∧
    ((l.filter (fun h => h.fid != f.fid)).map (fun h => h.fileSize)).sum + f.fileSize
      = (l.map (fun h => h.fileSize)).sum := by
  induction l with
  | nil => simp at hmem
  | cons a t ih =>
      rw [List.map_cons, List.nodup_cons] at hnd
      obtain ⟨hanin, hnd'⟩ := hnd
      by_cases haf : a.fid = f.fid
      · have hfa : f = a := by
          rcases List.mem_cons.mp hmem with h | hft
          · exact h
          · have : a.fid ∈ t.map (fun h => h.fid) := by
              rw [haf]
              exact List.mem_map_of_mem _ hft
            exact absurd this hanin
      -- with the head equal to the removed row, the tail is untouched
        subst hfa
        have htf : t.filter (fun h => h.fid != f.fid) = t := by
          rw [List.filter_eq_self]
          intro x hx
          have hxfid : x.fid ≠ f.fid := by
            intro he
            exact hanin (he ▸ List.mem_map_of_mem (fun h => h.fid) hx)
          simpa using hxfid
        constructor
        · simp [List.filter_cons, htf]
        · simp [List.filter_cons, htf]
          omega
      · have hft : f ∈ t := by
          rcases List.mem_cons.mp hmem with h | hft
          · exact absurd (by rw [h]) haf
          · exact hft
        obtain ⟨ihl, ihs⟩ := ih hnd' hft
        have hkeep : (a.fid != f.fid) = true := by simpa using haf
        constructor
        · simp only [List.filter_cons, hkeep, if_true, List.length_cons]
          omega
        · simp only [List.filter_cons, hkeep, if_true, List.map_cons, List.sum_cons]
          omega

/-- The insert-and-update tail of the save transaction preserves
well-formedness and the derived-totals invariant, and its committed state is
the expected one.  The hypotheses describe the pre-state: unique and bounded
keys, files referencing groups of the working groups table, one target row
whose totals match its files and whose counter computes the serial, and
matching totals for every other group. -/
theorem insert_ok_preserves {db : DB} {G : List GroupRow} {gid serial : Nat}
    {uq fn ft : String} {fs : Nat} {tfid : String} {u : Int} {nextGid : Nat}
    {db' : DB} {fid s : Nat}
    (hok : insertFileAndUpdate db G gid serial uq fn ft fs tfid u nextGid = .ok (db', fid, s))
    (hGnd : (G.map (fun g => g.gid)).Nodup)
    (hGb : ∀ g ∈ G, g.gid < nextGid)
    (hFnd : (db.files.map (fun f => f.fid)).Nodup)
    (hFb : ∀ f ∈ db.files, f.fid < db.nextFileId)
    (hfk : ∀ f ∈ db.files, ∃ g ∈ G, f.groupId = g.gid)
    (hG : ∃ g ∈ G, g.gid = gid ∧ serial = g.totalFiles + 1 ∧
        g.totalFiles = (filesIn db.files gid).length ∧
        g.totalSize = ((filesIn db.files gid).map (fun f => f.fileSize)).sum)
    (hrest : ∀ g ∈ G, g.gid ≠ gid →
        g.totalFiles = (filesIn db.files g.gid).length ∧
        g.totalSize = ((filesIn db.files g.gid).map (fun f => f.fileSize)).sum) :
    dbWF db' ∧ groupInvariant db' ∧
    db'.groups = G.map (fun x => if x.gid == gid then
      { x with totalFiles := serial, totalSize := x.totalSize + fs } else x) ∧
    db'.files = ⟨db.nextFileId, gid, serial, uq, fn, ft, fs, tfid, u⟩ :: db.files ∧
    db'.nextGroupId = nextGid ∧ db'.nextFileId = db.nextFileId + 1 ∧
    fid = db.nextFileId ∧ s = serial := by
  unfold insertFileAndUpdate at hok
  cases hst : serialTaken db.files gid serial with
  | true => rw [hst] at hok; simp at hok
  | false =>
      rw [hst] at hok
      cases hut : uniqueIdTaken db.files uq with
      | true => rw [hut] at hok; simp at hok
      | false =>
          rw [hut] at hok
          simp only [Bool.false_eq_true, if_false, Except.ok.injEq, Prod.mk.injEq] at hok
          obtain ⟨hdb, hfid, hs⟩ := hok
          subst hdb
          refine ⟨⟨?_, ?_, ?_, ?_, ?_⟩, ?_, rfl, rfl, rfl, rfl, hfid.symm, hs.symm⟩
          · show ((G.map (fun x => if x.gid == gid then
                { x with totalFiles := serial, totalSize := x.totalSize + fs } else x)).map
                  (fun g => g.gid)).Nodup
            rw [map_gid_of_update G _ (fun g => by split <;> rfl)]
            exact hGnd
          · rw [List.map_cons]
            refine List.nodup_cons.mpr ⟨?_, hFnd⟩
            intro hmem
            obtain ⟨f, hf, hfe⟩ := List.mem_map.mp hmem
            have := hFb f hf
            simp only at hfe
            omega
          · intro g' hg'
            obtain ⟨x, hx, rfl⟩ := List.mem_map.mp hg'
            have hxg : (if x.gid == gid then
                { x with totalFiles := serial, totalSize := x.totalSize + fs } else x).gid =
                x.gid := by
              split <;> rfl
            rw [hxg]
            exact hGb x hx
          · intro f' hf'
            rcases List.mem_cons.mp hf' with rfl | hf'
            · show db.nextFileId < db.nextFileId + 1
              omega
            · have := hFb f' hf'
              show f'.fid < db.nextFileId + 1
              omega
          · intro f' hf'
            have hupd : ∀ y : GroupRow, ((if y.gid == gid then
                { y with totalFiles := serial, totalSize := y.totalSize + fs } else y) :
                  GroupRow).gid = y.gid := fun y => by split <;> rfl
            rcases List.mem_cons.mp hf' with rfl | hf'
            · obtain ⟨g0, hg0, hg0gid, _⟩ := hG
              refine ⟨_, List.mem_map_of_mem _ hg0, ?_⟩
              show gid = _
              rw [hupd g0, hg0gid]
            · obtain ⟨g1, hg1, hfg⟩ := hfk f' hf'
              refine ⟨_, List.mem_map_of_mem _ hg1, ?_⟩
              rw [hupd g1]
              exact hfg
          · intro g' hg'
            obtain ⟨x, hx, rfl⟩ := List.mem_map.mp hg'
            by_cases hxg : x.gid = gid
            · obtain ⟨g0, hg0, hg0gid, hserial, hlen, hsum⟩ := hG
              obtain rfl : x = g0 :=
                List.inj_on_of_nodup_map hGnd hx hg0 (by rw [hxg, hg0gid])
              have hbeq : (x.gid == gid) = true := by simpa using hxg
              have hrow : ((⟨db.nextFileId, gid, serial, uq, fn, ft, fs, tfid, u⟩ :
                  FileRow).groupId == x.gid) = true := by
                simpa using hxg.symm
              simp only [hbeq, if_true]
              constructor
              · show serial = (filesOf _ x.gid).length
                simp only [filesOf, filesIn_cons, hrow, if_true, List.length_cons]
                rw [hxg]
                omega
              · show x.totalSize + fs = ((filesOf _ x.gid).map (fun f => f.fileSize)).sum
                simp only [filesOf, filesIn_cons, hrow, if_true, List.map_cons, List.sum_cons]
                rw [hxg]
                omega
            · have hbeq : (x.gid == gid) = false := by simpa using hxg
              have hrow : ((⟨db.nextFileId, gid, serial, uq, fn, ft, fs, tfid, u⟩ :
                  FileRow).groupId == x.gid) = false := by
                simp only []
                simpa using fun he => hxg he.symm
              simp only [hbeq, Bool.false_eq_true, if_false]
              have := hrest x hx hxg
              constructor
              · show x.totalFiles = (filesOf _ x.gid).length
                simp only [filesOf, filesIn_cons, hrow, Bool.false_eq_true, if_false]
                exact this.1
              · show x.totalSize = ((filesOf _ x.gid).map (fun f => f.fileSize)).sum
                simp only [filesOf, filesIn_cons, hrow, Bool.false_eq_true, if_false]
                exact this.2

/-- A successful save preserves well-formedness and the totals invariant, and
the target group's committed totals grow by exactly one file and the file's
size (from zero for a freshly created group, whose serial is 1). -/
theorem save_preserves {db : DB} {u : Int} {gn ft fn : String} {fs : Nat}
    {tfid uq : String} {db' : DB} {fid s : Nat}
    (hwf : dbWF db) (hinv : groupInvariant db)
    (hsave : saveFileToDb db u gn ft fn fs tfid uq = .ok (db', fid, s)) :
    dbWF db' ∧ groupInvariant db' ∧
    (∀ g, findGroup db u gn = some g →
      findGroup db' u gn = some ⟨g.gid, g.name, g.ownerId, g.totalFiles + 1, g.totalSize + fs⟩ ∧
      s = g.totalFiles + 1) ∧
    (findGroup db u gn = none →
      findGroup db' u gn = some ⟨db.nextGroupId, gn, u, 1, fs⟩ ∧ s = 1) := by
  obtain ⟨hGnd, hFnd, hGb, hFb, hfk⟩ := hwf
  unfold saveFileToDb at hsave
  cases hg : findGroup db u gn with
  | some g =>
      rw [hg] at hsave
      obtain ⟨hgmem, hgown, hgname⟩ := findGroup_eq_some hg
      have hinvg := hinv g hgmem
      have hmain := insert_ok_preserves hsave hGnd hGb hFnd hFb hfk
        ⟨g, hgmem, rfl, rfl, hinvg.1, hinvg.2⟩
        (fun g1 hg1 _ => hinv g1 hg1)
      obtain ⟨hwf', hinv', hgroups', hfiles', hng', hnf', hfid, hs⟩ := hmain
      refine ⟨hwf', hinv', ?_, ?_⟩
      · intro g2 hg2
        obtain rfl : g = g2 := by injection hg2
        refine ⟨?_, hs⟩
        have hg' : db.groups.find? (fun x => x.ownerId == u && x.name == gn) = some g := hg
        show db'.groups.find? (fun x => x.ownerId == u && x.name == gn) = _
        rw [hgroups', List.find?_map]
        have hpe : ((fun x : GroupRow => x.ownerId == u && x.name == gn) ∘
            (fun x => if x.gid == g.gid then
              { x with totalFiles := g.totalFiles + 1, totalSize := x.totalSize + fs }
            else x)) = (fun x : GroupRow => x.ownerId == u && x.name == gn) := by
          funext x
          simp only [Function.comp]
          split <;> rfl
        rw [hpe, hg']
        simp
      · intro hnone
        cases hnone
  | none =>
      rw [hg] at hsave
      have hGnd' : (((⟨db.nextGroupId, gn, u, 0, 0⟩ : GroupRow) :: db.groups).map
          (fun g => g.gid)).Nodup := by
        rw [List.map_cons]
        refine List.nodup_cons.mpr ⟨?_, hGnd⟩
        intro hmem
        obtain ⟨g1, hg1, hge⟩ := List.mem_map.mp hmem
        have := hGb g1 hg1
        simp only at hge
        omega
      have hGb' : ∀ g ∈ (⟨db.nextGroupId, gn, u, 0, 0⟩ : GroupRow) :: db.groups,
          g.gid < db.nextGroupId + 1 := by
        intro g1 hg1
        rcases List.mem_cons.mp hg1 with rfl | hg1
        · show db.nextGroupId < db.nextGroupId + 1
          omega
        · have := hGb g1 hg1
          omega
      have hfk' : ∀ f ∈ db.files, ∃ g ∈ (⟨db.nextGroupId, gn, u, 0, 0⟩ : GroupRow) :: db.groups,
          f.groupId = g.gid := by
        intro f hf
        obtain ⟨g1, hg1, hfg⟩ := hfk f hf
        exact ⟨g1, List.mem_cons_of_mem _ hg1, hfg⟩
      have hempty : filesIn db.files db.nextGroupId = [] := by
        rw [filesIn, List.filter_eq_nil_iff]
        intro f hf
        obtain ⟨g1, hg1, hfg⟩ := hfk f hf
        have := hGb g1 hg1
        simp only [hfg]
        simp only [beq_iff_eq]
        omega
      have hrest' : ∀ g ∈ (⟨db.nextGroupId, gn, u, 0, 0⟩ : GroupRow) :: db.groups,
          g.gid ≠ db.nextGroupId →
          g.totalFiles = (filesIn db.files g.gid).length ∧
          g.totalSize = ((filesIn db.files g.gid).map (fun f => f.fileSize)).sum := by
        intro g1 hg1 hne
        rcases List.mem_cons.mp hg1 with rfl | hg1
        · exact absurd rfl hne
        · exact hinv g1 hg1
      have hmain := insert_ok_preserves hsave hGnd' hGb' hFnd hFb hfk'
        ⟨⟨db.nextGroupId, gn, u, 0, 0⟩, List.mem_cons_self _ _, rfl, rfl,
          by rw [hempty]; rfl, by rw [hempty]; rfl⟩
        hrest'
      obtain ⟨hwf', hinv', hgroups', hfiles', hng', hnf', hfid, hs⟩ := hmain
      refine ⟨hwf', hinv', ?_, ?_⟩
      · intro g2 hg2
        cases hg2
      · intro _
        refine ⟨?_, hs⟩
        show db'.groups.find? (fun x => x.ownerId == u && x.name == gn) = _
        rw [hgroups', List.map_cons]
        have hhead : ((if ((⟨db.nextGroupId, gn, u, 0, 0⟩ : GroupRow).gid == db.nextGroupId)
            then { (⟨db.nextGroupId, gn, u, 0, 0⟩ : GroupRow) with
              totalFiles := 1, totalSize := (⟨db.nextGroupId, gn, u, 0, 0⟩ : GroupRow).totalSize + fs }
            else ⟨db.nextGroupId, gn, u, 0, 0⟩) : GroupRow) =
            ⟨db.nextGroupId, gn, u, 1, fs⟩ := by
          simp
        rw [hhead]
        simp [List.find?_cons]

/-- A (spec-modelled) deletion preserves well-formedness and the totals
invariant. -/
theorem delete_preserves {db : DB} {fid0 : Nat} {db' : DB}
    (hwf : dbWF db) (hinv : groupInvariant db) (hdel : deleteFile db fid0 = some db') :
    dbWF db' ∧ groupInvariant db' := by
  obtain ⟨hGnd, hFnd, hGb, hFb, hfk⟩ := hwf
  unfold deleteFile at hdel
  cases hfind : db.files.find? (fun f => f.fid == fid0) with
  | none => rw [hfind] at hdel; cases hdel
  | some f =>
      rw [hfind] at hdel
      have hfmem : f ∈ db.files := List.mem_of_find?_eq_some hfind
      have hffid : f.fid = fid0 := by simpa using List.find?_some hfind
      obtain rfl : ({ db with
          files := db.files.filter (fun h => h.fid != fid0),
          groups := db.groups.map (fun g =>
            if g.gid == f.groupId then
              { g with totalFiles := g.totalFiles - 1, totalSize := g.totalSize - f.fileSize }
            else g) } : DB) = db' := by injection hdel
      have hupd : ∀ y : GroupRow, ((if y.gid == f.groupId then
          { y with totalFiles := y.totalFiles - 1, totalSize := y.totalSize - f.fileSize }
          else y) : GroupRow).gid = y.gid := fun y => by split <;> rfl
      refine ⟨⟨?_, ?_, ?_, ?_, ?_⟩, ?_⟩
      · show ((db.groups.map (fun g => if g.gid == f.groupId then
            { g with totalFiles := g.totalFiles - 1, totalSize := g.totalSize - f.fileSize }
            else g)).map (fun g => g.gid)).Nodup
        rw [map_gid_of_update _ _ (fun g => by split <;> rfl)]
        exact hGnd
      · exact List.Nodup.sublist ((List.filter_sublist _).map _) hFnd
      · intro g' hg'
        obtain ⟨x, hx, rfl⟩ := List.mem_map.mp hg'
        rw [hupd x]
        exact hGb x hx
      · intro f' hf'
        exact hFb f' (List.mem_of_mem_filter hf')
      · intro f' hf'
        obtain ⟨g1, hg1, hfg⟩ := hfk f' (List.mem_of_mem_filter hf')
        refine ⟨_, List.mem_map_of_mem _ hg1, ?_⟩
        rw [hupd g1]
        exact hfg
      · intro g' hg'
        obtain ⟨x, hx, rfl⟩ := List.mem_map.mp hg'
        have hinvx1 := (hinv x hx).1
        have hinvx2 := (hinv x hx).2
        simp only [filesOf] at hinvx1 hinvx2
        by_cases hxg : x.gid = f.groupId
        · have hbeq : (x.gid == f.groupId) = true := by simpa using hxg
          have hfin : f ∈ filesIn db.files x.gid := by
            rw [filesIn, List.mem_filter]
            exact ⟨hfmem, by simpa using hxg.symm⟩
          have hsubnd : ((filesIn db.files x.gid).map (fun h => h.fid)).Nodup :=
            List.Nodup.sublist ((List.filter_sublist _).map _) hFnd
          obtain ⟨hlen, hsum⟩ := remove_one_counts (filesIn db.files x.gid) f hsubnd hfin
          simp only [hbeq, if_true]
          constructor
          · show x.totalFiles - 1 = (filesOf _ x.gid).length
            dsimp only [filesOf]
            rw [filesIn_filter, ← hffid]
            omega
          · show x.totalSize - f.fileSize = ((filesOf _ x.gid).map (fun h => h.fileSize)).sum
            dsimp only [filesOf]
            rw [filesIn_filter, ← hffid]
            omega
        · have hbeq : (x.gid == f.groupId) = false := by simpa using hxg
          have hsame : (filesIn db.files x.gid).filter (fun h => h.fid != fid0) =
              filesIn db.files x.gid := by
            rw [List.filter_eq_self]
            intro y hy
            rw [filesIn, List.mem_filter] at hy
            obtain ⟨hymem, hygid⟩ := hy
            have hyne : y ≠ f := by
              intro he
              apply hxg
              have hgg : y.groupId = x.gid := by simpa using hygid
              rw [← hgg, he]
            have hfidne : y.fid ≠ f.fid :=
              fun he => hyne (List.inj_on_of_nodup_map hFnd hymem hfmem he)
            rw [hffid] at hfidne
            simpa using hfidne
          simp only [hbeq, Bool.false_eq_true, if_false]
          constructor
          · show x.totalFiles = (filesOf _ x.gid).length
            dsimp only [filesOf]
            rw [filesIn_filter, hsame]
            exact hinvx1
          · show x.totalSize = ((filesOf _ x.gid).map (fun h => h.fileSize)).sum
            dsimp only [filesOf]
            rw [filesIn_filter, hsame]
            exact hinvx2

/-- Every reachable database is well-formed and satisfies the totals
invariant. -/
theorem reach_wf_inv {db : DB} (h : Reach db) : dbWF db ∧ groupInvariant db := by
  induction h with
  | origin =>
      exact ⟨⟨List.nodup_nil, List.nodup_nil,
        fun g hg => absurd hg (List.not_mem_nil g),
        fun f hf => absurd hf (List.not_mem_nil f),
        fun f hf => absurd hf (List.not_mem_nil f)⟩,
        fun g hg => absurd hg (List.not_mem_nil g)⟩
  | ingest _ hs ih => exact ⟨(save_preserves ih.1 ih.2 hs).1, (save_preserves ih.1 ih.2 hs).2.1⟩
  | remove _ hd ih => exact delete_preserves ih.1 ih.2 hd

/-- The committed state of a successful insert-and-update transaction. -/
theorem insert_ok_shape {db : DB} {G : List GroupRow} {gid serial : Nat}
    {uq fn ft : String} {fs : Nat} {tfid : String} {u : Int} {nextGid : Nat}
    {db' : DB} {fid s : Nat}
    (hok : insertFileAndUpdate db G gid serial uq fn ft fs tfid u nextGid = .ok (db', fid, s)) :
    db'.groups = G.map (fun x => if x.gid == gid then
      { x with totalFiles := serial, totalSize := x.totalSize + fs } else x) ∧
    db'.files = ⟨db.nextFileId, gid, serial, uq, fn, ft, fs, tfid, u⟩ :: db.files ∧
    s = serial := by
  unfold insertFileAndUpdate at hok
  cases hst : serialTaken db.files gid serial with
  | true => rw [hst] at hok; simp at hok
  | false =>
      rw [hst] at hok
      cases hut : uniqueIdTaken db.files uq with
      | true => rw [hut] at hok; simp at hok
      | false =>
          rw [hut] at hok
          simp only [Bool.false_eq_true, if_false, Except.ok.injEq, Prod.mk.injEq] at hok
          obtain ⟨hdb, hfid, hs⟩ := hok
          subst hdb
          exact ⟨rfl, rfl, hs.symm⟩

/-- A successful save preserves the per-group serial upper bound: afterwards
every file serial is still at most its group's cached counter. -/
theorem save_serialBound {db : DB} {u : Int} {gn ft fn : String} {fs : Nat}
    {tfid uq : String} {db' : DB} {fid s : Nat}
    (hwf : dbWF db) (hsb : serialBound db)
    (hsave : saveFileToDb db u gn ft fn fs tfid uq = .ok (db', fid, s)) :
    serialBound db' := by
  obtain ⟨hGnd, hFnd, hGb, hFb, hfk⟩ := hwf
  unfold saveFileToDb at hsave
  cases hg : findGroup db u gn with
  | some g =>
      rw [hg] at hsave
      obtain ⟨hgmem, _, _⟩ := findGroup_eq_some hg
      obtain ⟨hgroups', hfiles', hs⟩ := insert_ok_shape hsave
      intro g' hg' f' hf' hfg
      rw [hgroups'] at hg'
      rw [hfiles'] at hf'
      obtain ⟨x, hx, rfl⟩ := List.mem_map.mp hg'
      have hxgid : ((if x.gid == g.gid then
          { x with totalFiles := g.totalFiles + 1, totalSize := x.totalSize + fs } else x) :
            GroupRow).gid = x.gid := by split <;> rfl
      rw [hxgid] at hfg
      rcases List.mem_cons.mp hf' with rfl | hmem
      · have hxg : x.gid = g.gid := by simpa using hfg.symm
        obtain rfl : x = g := List.inj_on_of_nodup_map hGnd hx hgmem hxg
        have hbeq : (x.gid == x.gid) = true := by simp
        simp only [hbeq, if_true]
        show x.totalFiles + 1 ≤ x.totalFiles + 1
        omega
      · by_cases hxg : x.gid = g.gid
        · have hold := hsb g hgmem f' hmem (by rw [hfg, hxg])
          obtain rfl : x = g := List.inj_on_of_nodup_map hGnd hx hgmem hxg
          have hbeq : (x.gid == x.gid) = true := by simp
          simp only [hbeq, if_true]
          show f'.serialNumber ≤ x.totalFiles + 1
          omega
        · have hbeq : (x.gid == g.gid) = false := by simpa using hxg
          simp only [hbeq, Bool.false_eq_true, if_false]
          exact hsb x hx f' hmem hfg
  | none =>
      rw [hg] at hsave
      obtain ⟨hgroups', hfiles', hs⟩ := insert_ok_shape hsave
      intro g' hg' f' hf' hfg
      rw [hgroups'] at hg'
      rw [hfiles'] at hf'
      obtain ⟨x, hx, rfl⟩ := List.mem_map.mp hg'
      have hxgid : ((if x.gid == db.nextGroupId then
          { x with totalFiles := 1, totalSize := x.totalSize + fs } else x) : GroupRow).gid =
          x.gid := by split <;> rfl
      rw [hxgid] at hfg
      rcases List.mem_cons.mp hf' with rfl | hmem
      · have hxg : x.gid = db.nextGroupId := by simpa using hfg.symm
        have hbeq : (x.gid == db.nextGroupId) = true := by simpa using hxg
        simp only [hbeq, if_true]
        show 1 ≤ 1
        omega
      · rcases List.mem_cons.mp hx with rfl | hxmem
        · exfalso
          obtain ⟨g1, hg1, hfg1⟩ := hfk f' hmem
          have hlt := hGb g1 hg1
          have hfg2 : f'.groupId = db.nextGroupId := by simpa using hfg
          rw [hfg1] at hfg2
          omega
        · by_cases hxg : x.gid = db.nextGroupId
          · exfalso
            have := hGb x hxmem
            omega
          · have hbeq : (x.gid == db.nextGroupId) = false := by simpa using hxg
            simp only [hbeq, Bool.false_eq_true, if_false]
            exact hsb x hxmem f' hmem hfg

/-- Ingestion-only reachability implies reachability. -/
theorem reachI_reach {db : DB} (h : ReachI db) : Reach db := by
  induction h with
  | origin => exact Reach.origin
  | ingest _ hs ih => exact Reach.ingest ih hs

/-- In every database reachable by ingestion alone, file serials are bounded by
their group's cached counter. -/
theorem reachI_serialBound {db : DB} (h : ReachI db) : serialBound db := by
  induction h with
  | origin => exact fun g hg => absurd hg (List.not_mem_nil g)
  | ingest hr hs ih =>
      exact save_serialBound (reach_wf_inv (reachI_reach hr)).1 ih hs

/-- C3: in every reachable database the cached group totals are exactly the
count and the byte-size sum of the group's non-deleted files, and a successful
ingestion commits, in the same atomic transaction as the file insert, a group
update of exactly plus one file and plus the ingested byte size (from zero for
a freshly created group). -/
theorem totals_match_files {db : DB} (h : Reach db) :
    groupInvariant db ∧
    (∀ (u : Int) (gn ft fn tfid uq : String) (fs : Nat) (db' : DB) (fid s : Nat),
      saveFileToDb db u gn ft fn fs tfid uq = .ok (db', fid, s) →
      groupInvariant db' ∧
      (∀ g, findGroup db u gn = some g →
        findGroup db' u gn =
          some ⟨g.gid, g.name, g.ownerId, g.totalFiles + 1, g.totalSize + fs⟩) ∧
      (findGroup db u gn = none →
        findGroup db' u gn = some ⟨db.nextGroupId, gn, u, 1, fs⟩)) := by
  obtain ⟨hwf, hinv⟩ := reach_wf_inv h
  refine ⟨hinv, ?_⟩
  intro u gn ft fn tfid uq fs db' fid s hsave
  obtain ⟨hwf', hinv', hsome, hnone⟩ := save_preserves hwf hinv hsave
  exact ⟨hinv', fun g hg => (hsome g hg).1, fun hn => (hnone hn).1⟩

/-- Witness for C3 on a concrete history: one ingestion reaches a database
whose cached totals match, and a second ingestion into the same group yields
totals increased by exactly one file and its 20 bytes. -/
theorem totals_match_files_witness :
    saveFileToDb dbInit 7 ("g") ("document") ("a") 10 ("t1") ("u1") =
      .ok (⟨[⟨1, "g", 7, 1, 10⟩], [⟨1, 1, 1, "u1", "a", "document", 10, "t1", 7⟩], 2, 2⟩, 1, 1) ∧
    groupInvariant ⟨[⟨1, "g", 7, 1, 10⟩], [⟨1, 1, 1, "u1", "a", "document", 10, "t1", 7⟩], 2, 2⟩ ∧
    findGroup (⟨[⟨1, "g", 7, 2, 30⟩], [⟨2, 1, 2, "u2", "b", "document", 20, "t2", 7⟩,
        ⟨1, 1, 1, "u1", "a", "document", 10, "t1", 7⟩], 2, 3⟩ : DB) 7 ("g") =
      some ⟨1, "g", 7, 2, 30⟩ := by
  have hr : Reach (⟨[⟨1, "g", 7, 1, 10⟩],
      [⟨1, 1, 1, "u1", "a", "document", 10, "t1", 7⟩], 2, 2⟩ : DB) :=
    Reach.ingest Reach.origin
      (show saveFileToDb dbInit 7 ("g") ("document") ("a") 10 ("t1") ("u1") =
        .ok (⟨[⟨1, "g", 7, 1, 10⟩], [⟨1, 1, 1, "u1", "a", "document", 10, "t1", 7⟩], 2, 2⟩, 1, 1)
        from rfl)
  refine ⟨rfl, (totals_match_files hr).1, ?_⟩
  have h2 := ((totals_match_files hr).2 7 ("g") ("document") ("b") ("t2") ("u2") 20
    (⟨[⟨1, "g", 7, 2, 30⟩], [⟨2, 1, 2, "u2", "b", "document", 20, "t2", 7⟩,
      ⟨1, 1, 1, "u1", "a", "document", 10, "t1", 7⟩], 2, 3⟩ : DB) 2 2 rfl).2.1
    ⟨1, "g", 7, 1, 10⟩ rfl
  exact h2

/-- Counterexample for C2: the code computes the next serial from the cached
`total_files` counter, not from the stored maximum serial.  After ingesting
serials 1 and 2 into one group, deleting the serial-2 file and ingesting again
reassigns serial 2 — a serial is reused after a deletion; and deleting the
serial-1 file instead makes the single insert attempt collide with the
surviving serial-2 row and surface the bare unique-constraint error (no retry,
no SerialAllocationFailed error exists in the code), while the claimed
`1 + max(serial)` formula would have produced the fresh serial 3. -/
theorem serial_allocation_claim_fails :
    saveFileToDb dbInit 7 ("g") ("document") ("a") 10 ("t1") ("u1") =
      .ok (⟨[⟨1, "g", 7, 1, 10⟩], [⟨1, 1, 1, "u1", "a", "document", 10, "t1", 7⟩], 2, 2⟩, 1, 1) ∧
    saveFileToDb ⟨[⟨1, "g", 7, 1, 10⟩], [⟨1, 1, 1, "u1", "a", "document", 10, "t1", 7⟩], 2, 2⟩
        7 ("g") ("document") ("b") 20 ("t2") ("u2") =
      .ok (⟨[⟨1, "g", 7, 2, 30⟩], [⟨2, 1, 2, "u2", "b", "document", 20, "t2", 7⟩,
        ⟨1, 1, 1, "u1", "a", "document", 10, "t1", 7⟩], 2, 3⟩, 2, 2) ∧
    deleteFile ⟨[⟨1, "g", 7, 2, 30⟩], [⟨2, 1, 2, "u2", "b", "document", 20, "t2", 7⟩,
        ⟨1, 1, 1, "u1", "a", "document", 10, "t1", 7⟩], 2, 3⟩ 2 =
      some ⟨[⟨1, "g", 7, 1, 10⟩], [⟨1, 1, 1, "u1", "a", "document", 10, "t1", 7⟩], 2, 3⟩ ∧
    saveFileToDb ⟨[⟨1, "g", 7, 1, 10⟩], [⟨1, 1, 1, "u1", "a", "document", 10, "t1", 7⟩], 2, 3⟩
        7 ("g") ("document") ("c") 30 ("t3") ("u3") =
      .ok (⟨[⟨1, "g", 7, 2, 40⟩], [⟨3, 1, 2, "u3", "c", "document", 30, "t3", 7⟩,
        ⟨1, 1, 1, "u1", "a", "document", 10, "t1", 7⟩], 2, 4⟩, 3, 2) ∧
    deleteFile ⟨[⟨1, "g", 7, 2, 30⟩], [⟨2, 1, 2, "u2", "b", "document", 20, "t2", 7⟩,
        ⟨1, 1, 1, "u1", "a", "document", 10, "t1", 7⟩], 2, 3⟩ 1 =
      some ⟨[⟨1, "g", 7, 1, 20⟩], [⟨2, 1, 2, "u2", "b", "document", 20, "t2", 7⟩], 2, 3⟩ ∧
    specNextSerial ⟨[⟨1, "g", 7, 1, 20⟩], [⟨2, 1, 2, "u2", "b", "document", 20, "t2", 7⟩], 2, 3⟩
        1 = 3 ∧
    saveFileToDb ⟨[⟨1, "g", 7, 1, 20⟩], [⟨2, 1, 2, "u2", "b", "document", 20, "t2", 7⟩], 2, 3⟩
        7 ("g") ("document") ("c") 30 ("t3") ("u3") = .error .uniqueViolation :=
  ⟨rfl, rfl, rfl, rfl, rfl, rfl, rfl⟩

/-- C2 (amended): serial allocation computes the next serial as the group's
cached `total_files` plus one (1 for a brand-new group), makes a single
read-compute-insert attempt under the `(group_id, serial_number)` uniqueness
constraint, and a constraint violation surfaces directly as the constraint
error with no retry and no dedicated SerialAllocationFailed error; within a
group, serials are strictly increasing over ingestion-only histories (no
deletions). -/
theorem serial_allocation_code_behavior (db : DB) (u : Int) (gn ft fn tfid uq : String)
    (fs : Nat) :
    (∀ g, findGroup db u gn = some g →
      (serialTaken db.files g.gid (g.totalFiles + 1) = true →
        saveFileToDb db u gn ft fn fs tfid uq = .error .uniqueViolation) ∧
      (serialTaken db.files g.gid (g.totalFiles + 1) = false →
        uniqueIdTaken db.files uq = false →
        ∃ db' fid, saveFileToDb db u gn ft fn fs tfid uq = .ok (db', fid, g.totalFiles + 1))) ∧
    (ReachI db →
      ∀ (db' : DB) (fid s : Nat), saveFileToDb db u gn ft fn fs tfid uq = .ok (db', fid, s) →
      ∀ g, findGroup db u gn = some g →
      ∀ f ∈ db.files, f.groupId = g.gid → f.serialNumber < s) := by
  constructor
  · intro g hg
    constructor
    · intro hst
      simp [saveFileToDb, hg, insertFileAndUpdate, hst]
    · intro hst hut
      refine ⟨⟨db.groups.map (fun x => if x.gid == g.gid then
          { x with totalFiles := g.totalFiles + 1, totalSize := x.totalSize + fs } else x),
          ⟨db.nextFileId, g.gid, g.totalFiles + 1, uq, fn, ft, fs, tfid, u⟩ :: db.files,
          db.nextGroupId, db.nextFileId + 1⟩, db.nextFileId, ?_⟩
      simp [saveFileToDb, hg, insertFileAndUpdate, hst, hut]
  · intro hreach db' fid s hsave g hg f hf hfg
    have hsb := reachI_serialBound hreach
    obtain ⟨hgmem, _, _⟩ := findGroup_eq_some hg
    have hb := hsb g hgmem f hf hfg
    have hs : s = g.totalFiles + 1 := by
      unfold saveFileToDb at hsave
      rw [hg] at hsave
      exact (insert_ok_shape hsave).2.2
    omega

/-- Witness for C2 (amended) at concrete inputs: a collision state surfaces
the constraint error, a clean state allocates cached-count-plus-one, and along
an ingestion-only history the new serial strictly exceeds the existing one. -/
theorem serial_allocation_code_behavior_witness :
    findGroup ⟨[⟨1, "g", 7, 1, 20⟩], [⟨2, 1, 2, "u2", "b", "document", 20, "t2", 7⟩], 2, 3⟩
        7 ("g") = some ⟨1, "g", 7, 1, 20⟩ ∧
    serialTaken [⟨2, 1, 2, "u2", "b", "document", 20, "t2", 7⟩] 1 2 = true ∧
    saveFileToDb ⟨[⟨1, "g", 7, 1, 20⟩], [⟨2, 1, 2, "u2", "b", "document", 20, "t2", 7⟩], 2, 3⟩
        7 ("g") ("document") ("c") 30 ("t3") ("u3") = .error .uniqueViolation ∧
    (∃ db' fid, saveFileToDb
        ⟨[⟨1, "g", 7, 1, 10⟩], [⟨1, 1, 1, "u1", "a", "document", 10, "t1", 7⟩], 2, 2⟩
        7 ("g") ("document") ("b") 20 ("t2") ("u2") = .ok (db', fid, 2)) ∧
    (⟨1, 1, 1, "u1", "a", "document", 10, "t1", 7⟩ : FileRow).serialNumber < 2 := by
  refine ⟨rfl, rfl, ?_, ?_, ?_⟩
  · exact ((serial_allocation_code_behavior
      ⟨[⟨1, "g", 7, 1, 20⟩], [⟨2, 1, 2, "u2", "b", "document", 20, "t2", 7⟩], 2, 3⟩
      7 ("g") ("document") ("c") ("t3") ("u3") 30).1 ⟨1, "g", 7, 1, 20⟩ rfl).1 rfl
  · exact ((serial_allocation_code_behavior
      ⟨[⟨1, "g", 7, 1, 10⟩], [⟨1, 1, 1, "u1", "a", "document", 10, "t1", 7⟩], 2, 2⟩
      7 ("g") ("document") ("b") ("t2") ("u2") 20).1 ⟨1, "g", 7, 1, 10⟩ rfl).2 rfl rfl
  · exact (serial_allocation_code_behavior
      ⟨[⟨1, "g", 7, 1, 10⟩], [⟨1, 1, 1, "u1", "a", "document", 10, "t1", 7⟩], 2, 2⟩
      7 ("g") ("document") ("b") ("t2") ("u2") 20).2
      (ReachI.ingest ReachI.origin
        (show saveFileToDb dbInit 7 ("g") ("document") ("a") 10 ("t1") ("u1") =
          .ok (⟨[⟨1, "g", 7, 1, 10⟩],
            [⟨1, 1, 1, "u1", "a", "document", 10, "t1", 7⟩], 2, 2⟩, 1, 1) from rfl))
      (⟨[⟨1, "g", 7, 2, 30⟩], [⟨2, 1, 2, "u2", "b", "document", 20, "t2", 7⟩,
        ⟨1, 1, 1, "u1", "a", "document", 10, "t1", 7⟩], 2, 3⟩ : DB) 2 2 rfl
      ⟨1, "g", 7, 1, 10⟩ rfl
      ⟨1, 1, 1, "u1", "a", "document", 10, "t1", 7⟩ (List.mem_cons_self _ _) rfl

end FileStore
